import Mathlib

/-!
Verification of the analytics engine of the Excel_Analyser application.

The application consists of near-duplicate React single-file variants; the
algorithmic core (column classification, descriptive statistics, trend and
anomaly detection, Pearson correlation, pivot/aggregation, date-serial
conversion) is embedded here as executable Lean definitions, translated
directly from the JavaScript source.

Modelling conventions, stated once:

* A table cell is a tagged scalar `Value`: a number (modelled as an exact
  rational; every IEEE double is a rational), a string, or `Value.null`.
  `Value.null` stands for both JavaScript `null` and an absent key
  (`undefined`): every code path embedded here treats the two identically
  (the membership tests `=== undefined || === null`, the truthiness coercion
  `v || d`, and `Number(row[h]) || 0`, which sends both `null` (via 0) and
  `undefined` (via NaN) to 0).
* A row is an association list from column name to `Value`, preserving the
  key insertion order that `Object.keys` exposes.  JavaScript-object
  pathologies that no spreadsheet data path exercises (prototype-chain keys
  such as a column literally named "constructor") are outside the model.
* Floating-point arithmetic is modelled by exact rational arithmetic, per
  the specification's stated non-goal of "numerical precision beyond
  standard double-precision floating point".  `Math.sqrt` is modelled by
  `Real.sqrt`.  Threshold literals (`0.8`, `0.05`, `1.5`) are modelled by
  the corresponding rationals.
-/

/-- Scalar value held in one table cell: a number, a string, or null/absent. -/
inductive Value where
  | num (q : ℚ)
  | str (s : String)
  | null
  deriving DecidableEq, Repr

/-- Result of JavaScript `Number(...)` coercion: a finite value, an infinity,
or NaN. -/
inductive JsNum where
  | fin (q : ℚ)
  | inf
  | negInf
  | nan
  deriving DecidableEq, Repr

/-- JavaScript truthiness of a scalar: `null`/`undefined`, the number 0 and
the empty string are falsy, everything else truthy. -/
def truthy : Value → Bool
  | .num q => q ≠ 0
  | .str s => s ≠ ""
  | .null => false

/-- The test `val === undefined || val === null || val === ""` used by the
pivot row filter and the classifier's presence check. -/
def isMissing : Value → Bool
  | .num _ => false
  | .str s => s = ""
  | .null => true

/-- Reading `row[h]` from a row: first binding of the key, `null` standing
for an absent key (see the modelling note on `Value.null`). -/
def getVal (row : List (String × Value)) (h : String) : Value :=
  match row.lookup h with
  | some v => v
  | none => .null

/-- Whitespace characters trimmed by JavaScript string-to-number coercion
(the common ASCII ones; exotic Unicode space code points are not modelled). -/
def isJsWs (c : Char) : Bool :=
  c = ' ' || c = '\t' || c = '\n' || c = '\r' || c = '\x0b' || c = '\x0c'

/-- Drop leading JavaScript whitespace. -/
def dropWs : List Char → List Char
  | [] => []
  | c :: cs => if isJsWs c then dropWs cs else c :: cs

/-- Trim JavaScript whitespace from both ends. -/
def trimWs (l : List Char) : List Char :=
  ((dropWs ((dropWs l).reverse)).reverse)

/-- Consume a maximal run of decimal digits, returning the accumulated value,
the number of digits consumed, and the rest. -/
def takeDigits (acc : ℕ) (k : ℕ) : List Char → ℕ × ℕ × List Char
  | [] => (acc, k, [])
  | c :: cs =>
    if '0' ≤ c ∧ c ≤ '9' then takeDigits (acc * 10 + (c.toNat - 48)) (k + 1) cs
    else (acc, k, c :: cs)

/-- Value of one hexadecimal digit, if the character is one. -/
def hexDigitVal (c : Char) : Option ℕ :=
  if '0' ≤ c ∧ c ≤ '9' then some (c.toNat - 48)
  else if 'a' ≤ c ∧ c ≤ 'f' then some (c.toNat - 87)
  else if 'A' ≤ c ∧ c ≤ 'F' then some (c.toNat - 55)
  else none

/-- Consume a maximal run of digits in the given base, via a digit-value
function. -/
def takeBaseDigits (dv : Char → Option ℕ) (base : ℕ) (acc : ℕ) (k : ℕ) :
    List Char → ℕ × ℕ × List Char
  | [] => (acc, k, [])
  | c :: cs =>
    match dv c with
    | some d => takeBaseDigits dv base (acc * base + d) (k + 1) cs
    | none => (acc, k, c :: cs)

/-- Parse an exponent suffix (`e`/`E`, optional sign, digits) applied to a
mantissa; empty input means no exponent.  Any trailing garbage yields NaN
(`none`). -/
def parseExpPart (m : ℚ) : List Char → Option ℚ
  | [] => some m
  | c :: cs =>
    if c = 'e' ∨ c = 'E' then
      let (sgn, rest) : ℤ × List Char :=
        match cs with
        | '+' :: cs2 => (1, cs2)
        | '-' :: cs2 => (-1, cs2)
        | _ => (1, cs)
      let (e, k, r) := takeDigits 0 0 rest
      if k = 0 ∨ r ≠ [] then none else some (m * (10 : ℚ) ^ (sgn * e))
    else none

/-- Parse an unsigned decimal literal (`digits`, `digits.digits`, `.digits`,
`digits.`) with optional exponent, requiring the whole input be consumed. -/
def parseDec (l : List Char) : Option ℚ :=
  let (ip, ik, r) := takeDigits 0 0 l
  match r with
  | '.' :: r2 =>
    let (fp, fk, r3) := takeDigits 0 0 r2
    if ik = 0 ∧ fk = 0 then none
    else parseExpPart ((ip : ℚ) + (fp : ℚ) / (10 : ℚ) ^ fk) r3
  | _ => if ik = 0 then none else parseExpPart (ip : ℚ) r

/-- JavaScript `Number(string)`: trims whitespace, maps the empty string to
0, accepts signed decimal literals, `Infinity`, and unsigned radix literals
(`0x`/`0o`/`0b`); everything else is NaN.  Exact rational semantics; the
rounding of long literals to the nearest double is not modelled. -/
def jsStrToNum (s : String) : JsNum :=
  match trimWs s.toList with
  | [] => .fin 0
  | '0' :: 'x' :: r =>
    (match takeBaseDigits hexDigitVal 16 0 0 r with
     | (v, k, []) => if k = 0 then .nan else .fin v
     | _ => .nan)
  | '0' :: 'X' :: r =>
    (match takeBaseDigits hexDigitVal 16 0 0 r with
     | (v, k, []) => if k = 0 then .nan else .fin v
     | _ => .nan)
  | '0' :: 'o' :: r =>
    (match takeBaseDigits (fun c => if '0' ≤ c ∧ c ≤ '7' then some (c.toNat - 48) else none) 8 0 0 r with
     | (v, k, []) => if k = 0 then .nan else .fin v
     | _ => .nan)
  | '0' :: 'b' :: r =>
    (match takeBaseDigits (fun c => if c = '0' ∨ c = '1' then some (c.toNat - 48) else none) 2 0 0 r with
     | (v, k, []) => if k = 0 then .nan else .fin v
     | _ => .nan)
  | l =>
    let (sgn, r) : ℚ × List Char :=
      match l with
      | '+' :: r => (1, r)
      | '-' :: r => (-1, r)
      | _ => (1, l)
    if r = ['I', 'n', 'f', 'i', 'n', 'i', 't', 'y'] then
      (if sgn = 1 then .inf else .negInf)
    else
      match parseDec r with
      | some q => .fin (sgn * q)
      | none => .nan

/-- JavaScript `Number(v)` on a cell: numbers pass through, strings are
parsed, `null`/absent go to the 0 that every embedded use site ends up with
(see the modelling note on `Value.null`). -/
def toNumber : Value → JsNum
  | .num q => .fin q
  | .str s => jsStrToNum s
  | .null => .fin 0

/-- The idiom `Number(v) || 0`: NaN (and the unrepresentable infinities,
see note) collapse to 0. -/
def toNumberOr0 (v : Value) : ℚ :=
  match toNumber v with
  | .fin q => q
  | _ => 0

/-- Decimal digits of a natural number, most significant first. -/
def natDigits (n : ℕ) : List Char :=
  (Nat.toDigits 10 n)

/-- Decimal expansion of the fractional remainder `r / den`, producing digits
while the remainder is nonzero, bounded by fuel.  Every IEEE double has a
finite decimal expansion, so for faithful inputs the fuel never runs out. -/
def fracDigits (fuel : ℕ) (r den : ℕ) : List Char :=
  match fuel with
  | 0 => []
  | fuel + 1 =>
    if r = 0 then []
    else
      let d := (r * 10) / den
      Char.ofNat (48 + d) :: fracDigits fuel (r * 10 % den) den

/-- JavaScript `String(x)` for a (finite) number, exact for integers and for
rationals with terminating decimal expansion (which includes every IEEE
double); the shortest-round-trip abbreviation JavaScript applies to doubles
that are not short decimals is not modelled. -/
def numToString (q : ℚ) : String :=
  let sign := if q < 0 then "-" else ""
  let n := q.num.natAbs
  let den := q.den
  let ip := String.mk (natDigits (n / den))
  let r := n % den
  if r = 0 then sign ++ ip
  else sign ++ ip ++ "." ++ String.mk (fracDigits 64 r den)

/-- JavaScript `String(v)` on a cell. -/
def jsString : Value → String
  | .num q => numToString q
  | .str s => s
  | .null => "null"

/-- JavaScript `reduce((a, b) => a + b, 0)`: a left fold from 0. -/
def jsSum (l : List ℚ) : ℚ :=
  l.foldl (· + ·) 0

/-- Insert `x` into `l`, placing it before the first element `y` with
`lt y x = false`; building block of the stable sort below. -/
def insertStable (lt : α → α → Bool) (x : α) : List α → List α
  | [] => [x]
  | y :: ys => if lt y x then y :: insertStable lt x ys else x :: y :: ys

/-- Stable sort by a strict-order test, modelling `Array.prototype.sort`
with a consistent comparator (stable per the ECMAScript specification):
elements the comparator ties keep their original relative order. -/
def sortStable (lt : α → α → Bool) : List α → List α
  | [] => []
  | x :: xs => insertStable lt x (sortStable lt xs)

/-- Comparator test of the default `Array.prototype.sort`: compare the
`String(...)` images lexicographically by UTF-16 code unit. -/
def defaultSortLt (a b : Value) : Bool :=
  decide (jsString a < jsString b)

/-- Test for a canonical array-index key ("0", "1", ..., below 2^32 - 1):
such object keys are enumerated first, in ascending numeric order, by
`Object.keys`/`Object.entries`. -/
def isIndexKey (s : String) : Bool :=
  match s.toList with
  | [] => false
  | l =>
    l.all (fun c => '0' ≤ c ∧ c ≤ '9') &&
    (s = "0" || l.headD '0' ≠ '0') &&
    (takeDigits 0 0 l).1 < 4294967295

/-- Numeric value of an all-digit key. -/
def indexKeyVal (s : String) : ℕ :=
  (takeDigits 0 0 s.toList).1

/-- Enumeration order of `Object.entries` over string keys in insertion
order: canonical array-index keys first in ascending numeric order, then the
remaining keys in insertion order. -/
def entriesOrder (l : List (String × α)) : List (String × α) :=
  sortStable (fun a b => indexKeyVal a.1 < indexKeyVal b.1)
      (l.filter (fun p => isIndexKey p.1)) ++
    l.filter (fun p => !isIndexKey p.1)

/-- JavaScript `parseFloat(x.toFixed(2))`: round to 2 decimal places,
half-ties toward positive infinity exactly as ECMAScript `toFixed` picks
"the larger n" (matching Mathlib's `round`). -/
def round2 (q : ℚ) : ℚ :=
  (round (q * 100) : ℤ) / 100

/-- A table row: association list from column name to cell value, in key
insertion order. -/
abbrev Row := List (String × Value)

/-!
Shared statistics functions.  The two application variants contain
textually identical copies of `calculateMedian`, `calculateStdDev`,
`calculateCorrelation`, `calculateTrend` and `detectAnomalies` (one inside
the `MathEngine` object literal, one at module scope); each is embedded
once here.
-/

/-- JavaScript `[...values].sort((a, b) => a - b)`: stable ascending numeric
sort. -/
def sortNumAsc (values : List ℚ) : List ℚ :=
  sortStable (fun a b => decide (a < b)) values

/-- Embeds `calculateMedian`. -/
def calculateMedian (values : List ℚ) : ℚ :=
  if values.length = 0 then 0
  else
    let sorted := sortNumAsc values
    let half := sorted.length / 2
    if sorted.length % 2 = 1 then sorted.getD half 0
    else (sorted.getD (half - 1) 0 + sorted.getD half 0) / 2

/-- Embeds `calculateStdDev` (population standard deviation against a
supplied mean, square-rooted in the reals). -/
noncomputable def calculateStdDev (values : List ℚ) (avg : ℚ) : ℝ :=
  if values.length = 0 then 0
  else
    Real.sqrt
      (((jsSum (values.map (fun v => (v - avg) * (v - avg))) / values.length : ℚ) : ℝ))

/-- Sum of pointwise products `Σ xᵢ·yᵢ` used by `calculateCorrelation`
(evaluated only after the equal-length guard). -/
def corrSumXY (x y : List ℚ) : ℚ :=
  jsSum ((x.zip y).map (fun p => p.1 * p.2))

/-- Numerator `n·Σxy − Σx·Σy` of `calculateCorrelation`. -/
def corrNum (x y : List ℚ) : ℚ :=
  (x.length : ℚ) * corrSumXY x y - jsSum x * jsSum y

/-- One factor `n·Σl² − (Σl)²` of the correlation radicand (the source uses
`n = x.length` for both factors; it only evaluates them after the
equal-length guard). -/
def corrFactor (n : ℕ) (l : List ℚ) : ℚ :=
  (n : ℚ) * jsSum (l.map (fun v => v * v)) - (jsSum l) ^ 2

/-- The radicand `(n·Σx² − (Σx)²)·(n·Σy² − (Σy)²)` whose square root is the
denominator of `calculateCorrelation`. -/
def corrDenSq (x y : List ℚ) : ℚ :=
  corrFactor x.length x * corrFactor x.length y

/-- Embeds `calculateCorrelation`: Pearson coefficient with a mismatched
length / empty input guard and a zero-denominator guard. -/
noncomputable def calculateCorrelation (x y : List ℚ) : ℝ :=
  if x.length ≠ y.length ∨ x.length = 0 then 0
  else if Real.sqrt ((corrDenSq x y : ℚ) : ℝ) = 0 then 0
  else (corrNum x y : ℝ) / Real.sqrt ((corrDenSq x y : ℚ) : ℝ)

/-- Trend direction classification. -/
inductive TrendDir where
  | increasing
  | decreasing
  | stable
  deriving DecidableEq, Repr

/-- Result object of `calculateTrend`.  The source labels the direction
field `trend` in the two early-return branches and `trendDirection` in the
main path; both carry the classification, modelled by the single field
`trendDirection`.  `intercept` is only present in the main path. -/
structure TrendResult where
  slope : ℚ
  intercept : Option ℚ
  nextVal : ℚ
  trendDirection : TrendDir
  deriving DecidableEq, Repr

/-- Sum `Σ x` over the synthetic x-axis `0 .. n-1` of `calculateTrend`. -/
def trendSumX (n : ℕ) : ℚ :=
  jsSum ((List.range n).map (fun i : ℕ => (i : ℚ)))

/-- Sum `Σ x²` over the synthetic x-axis of `calculateTrend`. -/
def trendSumX2 (n : ℕ) : ℚ :=
  jsSum ((List.range n).map (fun i : ℕ => (i : ℚ) * (i : ℚ)))

/-- Sum `Σ x·y = Σ i·valuesᵢ` of `calculateTrend`. -/
def trendSumXY (values : List ℚ) : ℚ :=
  jsSum (values.enum.map (fun p => (p.1 : ℚ) * p.2))

/-- The least-squares denominator `n·Σx² − (Σx)²` of `calculateTrend`. -/
def trendDenominator (n : ℕ) : ℚ :=
  (n : ℚ) * trendSumX2 n - trendSumX n * trendSumX n

/-- Embeds `calculateTrend`: ordinary least squares over insertion order,
with degenerate guards, one-step-ahead forecast, and the fixed ±0.05 slope
threshold. -/
def calculateTrend (values : List ℚ) : TrendResult :=
  let n := values.length
  if n < 2 then ⟨0, none, 0, .stable⟩
  else if trendDenominator n = 0 then ⟨0, none, values.getLast?.getD 0, .stable⟩
  else
    let sumX := trendSumX n
    let sumY := jsSum values
    let slope := ((n : ℚ) * trendSumXY values - sumX * sumY) / trendDenominator n
    let intercept := (sumY - slope * sumX) / n
    let nextVal := slope * n + intercept
    ⟨slope, some intercept, nextVal,
      if slope > 1 / 20 then .increasing
      else if slope < -(1 / 20) then .decreasing
      else .stable⟩

/-- Embeds `detectAnomalies`: Tukey IQR rule with index-based quartiles
`sorted[⌊n/4⌋]` and `sorted[⌊3n/4⌋]`, flagging values strictly outside
`[Q1 − 1.5·IQR, Q3 + 1.5·IQR]`; fewer than 4 points yield no anomalies. -/
def detectAnomalies (values : List ℚ) : List ℚ :=
  if values.length < 4 then []
  else
    let sorted := sortNumAsc values
    let q1 := sorted.getD (sorted.length / 4) 0
    let q3 := sorted.getD (sorted.length * 3 / 4) 0
    let iqr := q3 - q1
    let lowerBound := q1 - 3 / 2 * iqr
    let upperBound := q3 + 3 / 2 * iqr
    values.filter (fun v => v < lowerBound ∨ v > upperBound)

/-!
The pivot engine.  The two variants share their accumulation and
finalization code verbatim but differ in how a row's keys are resolved:
the `MathEngine.performPivot` variant skips rows whose resolved dimension
field is absent/null/empty, while the module-scope `performPivot` variant
coerces falsy dimension values to the key "Unknown" and keeps the row.
-/

/-- The five aggregation functions offered by the pivot UI. -/
inductive AggFunc where
  | Sum
  | Average
  | Count
  | Max
  | Min
  deriving DecidableEq, Repr

/-- Accumulation state of one pivot pass: the two key `Set`s in insertion
order and the `valuesMap` buckets keyed by stringified key pair (JavaScript
object keys are strings). -/
structure PivotState where
  rowKeys : List Value
  colKeys : List Value
  valuesMap : List ((String × String) × List Value)
  deriving DecidableEq, Repr

/-- `Set.add`: append if not yet present. -/
def addKey (keys : List Value) (k : Value) : List Value :=
  if k ∈ keys then keys else keys ++ [k]

/-- Ensure the bucket for `k` exists (creating it empty), then push a value
into it when one is supplied. -/
def bucketUpdate (m : List ((String × String) × List Value)) (k : String × String) :
    Option Value → List ((String × String) × List Value)
  | push =>
    match m with
    | [] => [(k, match push with | some v => [v] | none => [])]
    | (k', vs) :: rest =>
      if k' = k then (k', match push with | some v => vs ++ [v] | none => vs) :: rest
      else (k', vs) :: bucketUpdate rest k push

/-- Shared per-row accumulation once the row and column keys are resolved:
register both keys, then push `row[valDim]` into the bucket when the
function is Count or the value is a number. -/
def pivotRecord (valDim : String) (func : AggFunc) (st : PivotState) (row : Row)
    (rKey cKey : Value) : PivotState :=
  let val := getVal row valDim
  let push :=
    if (func == AggFunc.Count) || (match val with | .num _ => true | _ => false) then some val
    else none
  ⟨addKey st.rowKeys rKey, addKey st.colKeys cKey,
    bucketUpdate st.valuesMap (jsString rKey, jsString cKey) push⟩

/-- Bucket value used when aggregating under Sum/Average/Max/Min; such
buckets only ever contain numbers (the push condition), so the fallback 0
is never consulted. -/
def valueAsNum : Value → ℚ
  | .num q => q
  | _ => 0

/-- JavaScript `Math.max(...vals)` over a nonempty list. -/
def listMax (l : List ℚ) : ℚ :=
  l.foldl max (l.headD 0)

/-- JavaScript `Math.min(...vals)` over a nonempty list. -/
def listMin (l : List ℚ) : ℚ :=
  l.foldl min (l.headD 0)

/-- The aggregation switch shared by both variants; an empty bucket yields
the default 0. -/
def aggregate (func : AggFunc) (vals : List Value) : ℚ :=
  if vals.length = 0 then 0
  else
    let nums := vals.map valueAsNum
    match func with
    | .Sum => jsSum nums
    | .Average => jsSum nums / (vals.length : ℚ)
    | .Count => (vals.length : ℚ)
    | .Max => listMax nums
    | .Min => listMin nums

/-- Result of one pivot: both key sequences sorted by the default (string)
comparator, and a dense grid of rounded aggregates in that order. -/
structure PivotResult where
  rowKeys : List Value
  colKeys : List Value
  grid : List (String × List (String × ℚ))
  deriving DecidableEq, Repr

/-- Finalization shared by both variants: sort the key sets with the default
comparator and build the dense rounded grid. -/
def pivotFinalize (func : AggFunc) (st : PivotState) : PivotResult :=
  let sortedRowKeys := sortStable defaultSortLt st.rowKeys
  let sortedColKeys := sortStable defaultSortLt st.colKeys
  let grid := sortedRowKeys.map (fun rKey =>
    (jsString rKey, sortedColKeys.map (fun cKey =>
      let vals :=
        match st.valuesMap.lookup (jsString rKey, jsString cKey) with
        | some vs => vs
        | none => []
      (jsString cKey, round2 (aggregate func vals)))))
  ⟨sortedRowKeys, sortedColKeys, grid⟩

namespace MathEngine

/-- Per-row step of `MathEngine.performPivot`: resolve the row key (sentinel
"None" ↦ "Total"), returning early — skipping the row — when a real row or
column dimension's field is absent/null/empty. -/
def pivotStep (rowDim colDim valDim : String) (func : AggFunc) (st : PivotState)
    (row : Row) : PivotState :=
  if rowDim ≠ "None" ∧ isMissing (getVal row rowDim) then st
  else
    let rKey := if rowDim = "None" then Value.str "Total" else getVal row rowDim
    if colDim ≠ "None" ∧ isMissing (getVal row colDim) then st
    else
      let cKey := if colDim = "None" then Value.str "Total" else getVal row colDim
      pivotRecord valDim func st row rKey cKey

/-- Embeds `MathEngine.performPivot` (the variant that skips rows with a
missing dimension field). -/
def performPivot (data : List Row) (rowDim colDim valDim : String) (func : AggFunc) :
    PivotResult :=
  pivotFinalize func (data.foldl (pivotStep rowDim colDim valDim func) ⟨[], [], []⟩)

end MathEngine

/-- Per-row step of the module-scope `performPivot` variant:
`rowDim === "None" ? "Total" : (row[rowDim] || "Unknown")` — falsy dimension
values (absent, null, empty string, the number 0) are coerced to the key
"Unknown" and the row is always kept. -/
def pivotStepCoerce (rowDim colDim valDim : String) (func : AggFunc) (st : PivotState)
    (row : Row) : PivotState :=
  let rKey :=
    if rowDim = "None" then Value.str "Total"
    else if truthy (getVal row rowDim) then getVal row rowDim else Value.str "Unknown"
  let cKey :=
    if colDim = "None" then Value.str "Total"
    else if truthy (getVal row colDim) then getVal row colDim else Value.str "Unknown"
  pivotRecord valDim func st row rKey cKey

/-- Embeds the module-scope `performPivot` of the second application variant
(the one that coerces falsy dimension values to "Unknown"). -/
def performPivot (data : List Row) (rowDim colDim valDim : String) (func : AggFunc) :
    PivotResult :=
  pivotFinalize func (data.foldl (pivotStepCoerce rowDim colDim valDim func) ⟨[], [], []⟩)

/-!
Column classification and the dataset profiling pipeline (`processData` of
the first application variant; the second variant's `processData` is the
same code minus the date-conversion stage, and the classification and KPI
stages below embed both).
-/

/-- Inner loop of the column classifier over the sampled cells: tracks
whether every present value so far converts to a non-NaN number (breaking
at the first failure, with the check counter already incremented) and how
many present values were seen. -/
def classifyLoop : List Value → ℕ → Bool × ℕ
  | [], c => (true, c)
  | v :: rest, c =>
    if isMissing v then classifyLoop rest c
    else if toNumber v = .nan then (false, c + 1)
    else classifyLoop rest (c + 1)

/-- Embeds the classifier of `processData`: inspect up to the first 50 rows
of the column; the column is numeric when at least one inspected value is
present and no present inspected value converts to NaN. -/
def isNumericCol (json : List Row) (header : String) : Bool :=
  let sample := (json.take 50).map (fun row => getVal row header)
  let r := classifyLoop sample 0
  decide (0 < r.2) && r.1

namespace ExcelDateUtils

/-- Embeds `ExcelDateUtils.isLikelyDate`: over a sample of up to 50 values,
count those that are numbers strictly between 32000 and 75000, and flag the
column when the fraction exceeds 0.8.  The source compares
`validCount / checkLimit > 0.8` in doubles; with both counts at most 50 the
comparison agrees exactly with the rational test `5·validCount > 4·checkLimit`
(no ratio of such integers falls between 4/5 and the double nearest 0.8). -/
def isLikelyDate (values : List Value) : Bool :=
  if values.isEmpty then false
  else
    let checkLimit := min values.length 50
    let validCount :=
      (values.take checkLimit).countP
        (fun v => match v with | .num q => decide (32000 < q ∧ q < 75000) | _ => false)
    decide (4 * checkLimit < 5 * validCount)

/-- Gregorian calendar date (year, month, day) of a day count relative to
1970-01-01, modelling the ECMAScript `getUTCFullYear`/`getUTCMonth`/
`getUTCDate` decomposition (proleptic Gregorian) of the instant
`days · 86400 · 1000` ms. -/
def civilFromDays (z0 : ℤ) : ℤ × ℤ × ℤ :=
  let z := z0 + 719468
  let era := Int.fdiv z 146097
  let doe := z - era * 146097
  let yoe := (doe - doe / 1460 + doe / 36524 - doe / 146096) / 365
  let y := yoe + era * 400
  let doy := doe - (365 * yoe + yoe / 4 - yoe / 100)
  let mp := (5 * doy + 2) / 153
  let d := doy - (153 * mp + 2) / 5 + 1
  let m := if mp < 10 then mp + 3 else mp - 9
  (if m ≤ 2 then y + 1 else y, m, d)

/-- JavaScript `String(n).padStart(2, "0")` for the (nonnegative) month and
day fields. -/
def pad2 (n : ℤ) : String :=
  let s := String.mk (natDigits n.toNat)
  if s.length < 2 then "0" ++ s else s

/-- Embeds `ExcelDateUtils.serialToDateStr`: `days = ⌊serial − 25569⌋`,
decomposed as a UTC calendar date and formatted `YYYY-MM-DD`. -/
def serialToDateStr (serial : ℚ) : String :=
  let utcDays : ℤ := ⌊serial - 25569⌋
  let ymd := civilFromDays utcDays
  (if ymd.1 < 0 then "-" ++ String.mk (natDigits (-ymd.1).toNat)
   else String.mk (natDigits ymd.1.toNat)) ++
    "-" ++ pad2 ymd.2.1 ++ "-" ++ pad2 ymd.2.2

end ExcelDateUtils

/-- Enumeration order of `Object.keys` over a key list in insertion order
(array-index keys first, ascending; see `entriesOrder`). -/
def keysOrder (l : List String) : List String :=
  sortStable (fun a b => indexKeyVal a < indexKeyVal b) (l.filter isIndexKey) ++
    l.filter (fun s => !isIndexKey s)

/-- Column names of the dataset: `Object.keys(json[0])`. -/
def headersOf (json : List Row) : List String :=
  keysOrder ((json.headD []).map Prod.fst)

/-- Sample of the first 50 cells of one column, as passed to
`isLikelyDate`. -/
def columnSample (json : List Row) (header : String) : List Value :=
  (json.take 50).map (fun row => getVal row header)

/-- The set of headers flagged as date-serial columns. -/
def dateColumnsOf (json : List Row) : List String :=
  (headersOf json).filter (fun h => ExcelDateUtils.isLikelyDate (columnSample json h))

/-- Rewrite the numeric cells of the flagged date columns of one row as ISO
date strings. -/
def convertRow (dateCols : List String) (row : Row) : Row :=
  row.map (fun kv =>
    if kv.1 ∈ dateCols then
      match kv.2 with
      | .num q => (kv.1, .str (ExcelDateUtils.serialToDateStr q))
      | _ => kv
    else kv)

/-- Stage 1 of `processData`: detect date-serial columns and convert their
numeric cells in place (the in-place `forEach` mutation is modelled as a
map producing the post-mutation dataset). -/
def convertDates (json : List Row) : List Row :=
  let dateCols := dateColumnsOf json
  if dateCols.isEmpty then json else json.map (convertRow dateCols)

/-- Raw numeric series of one column: `Number(row[header]) || 0` for every
row. -/
def numericColValues (json : List Row) (col : String) : List ℚ :=
  json.map (fun row => toNumberOr0 (getVal row col))

/-- Categorical value list of one column: `String(row[header] || "N/A")`
for every row — every falsy cell becomes the literal "N/A". -/
def catColValues (json : List Row) (col : String) : List String :=
  json.map (fun row =>
    if truthy (getVal row col) then jsString (getVal row col) else "N/A")

/-- Numeric KPI of one column (`rawData` plus rounded descriptive
statistics). -/
structure NumericKPI where
  column : String
  rawData : List ℚ
  min : ℚ
  max : ℚ
  avg : ℚ
  median : ℚ
  stdDev : ℝ

/-- Categorical KPI of one column: top-5 value frequencies and the distinct
value count. -/
structure CategoricalKPI where
  column : String
  topValues : List (String × ℕ)
  uniqueCount : ℕ
  deriving DecidableEq, Repr

/-- The rounding `parseFloat(x.toFixed(2))` applied to the real-valued
standard deviation. -/
noncomputable def round2R (x : ℝ) : ℝ :=
  (round (x * 100) : ℤ) / 100

/-- Numeric KPI construction of `processData` for one classified-numeric
column. -/
noncomputable def numericKPIof (json : List Row) (col : String) : NumericKPI :=
  let values := numericColValues json col
  let avg := jsSum values / (values.length : ℚ)
  { column := col
    rawData := values
    min := listMin values
    max := listMax values
    avg := round2 avg
    median := round2 (calculateMedian values)
    stdDev := round2R (calculateStdDev values avg) }

/-- One step of `counts[v] = (counts[v] || 0) + 1`: bump the key's count or
append a fresh entry (object keys keep insertion order). -/
def bumpCount (counts : List (String × ℕ)) (s : String) : List (String × ℕ) :=
  match counts with
  | [] => [(s, 1)]
  | (k, n) :: rest => if k = s then (k, n + 1) :: rest else (k, n) :: bumpCount rest s

/-- Frequency table of the categorical value list, entries in first-insertion
order. -/
def buildCounts (vals : List String) : List (String × ℕ) :=
  vals.foldl bumpCount []

/-- Categorical KPI construction of `processData` for one
classified-categorical column: `Object.entries(counts)` enumerated in object
key order, stably sorted by descending count, truncated to the top 5. -/
def categoricalKPIof (json : List Row) (col : String) : CategoricalKPI :=
  let values := catColValues json col
  let sorted := sortStable (fun a b => decide (b.2 < a.2)) (entriesOrder (buildCounts values))
  { column := col, topValues := sorted.take 5, uniqueCount := sorted.length }

/-- The analytics output `{ numeric, categorical, raw, headers }` produced
by `processData`. -/
structure Analytics where
  numeric : List NumericKPI
  categorical : List CategoricalKPI
  raw : List Row
  headers : List String

/-- Embeds `processData` of the first application variant: date detection
and conversion, column classification on the converted dataset, then numeric
and categorical KPI construction (KPI lists in `Object.entries` order of the
respective column groups).  An empty dataset returns early with no output. -/
noncomputable def processData (json : List Row) : Option Analytics :=
  if json.isEmpty then none
  else
    let headers := headersOf json
    let json' := convertDates json
    some
      { numeric :=
          (keysOrder (headers.filter (fun h => isNumericCol json' h))).map
            (fun h => numericKPIof json' h)
        categorical :=
          (keysOrder (headers.filter (fun h => !isNumericCol json' h))).map
            (fun h => categoricalKPIof json' h)
        raw := json'
        headers := headers }

/-- Witness for C10's theorem on a concrete two-KPI list (second KPI with a
constant raw series) at diagonal index 1. -/
noncomputable def witnessKPIs : List NumericKPI :=
  [⟨"a", [0, 1], 0, 1, 1 / 2, 1 / 2, 0⟩, ⟨"b", [5, 5], 5, 5, 5, 5, 0⟩]

/-- Embeds the correlation matrix of `CorrelationView`: diagonal cells are
the constant 1 (the correlation function is not invoked there); off-diagonal
cells apply `calculateCorrelation` to the two raw series. -/
noncomputable def correlationGrid (kpis : List NumericKPI) : List (List ℝ) :=
  (List.range kpis.length).map (fun i =>
    (List.range kpis.length).map (fun j =>
      if i = j then 1
      else
        calculateCorrelation (kpis.getD i ⟨"", [], 0, 0, 0, 0, 0⟩).rawData
          (kpis.getD j ⟨"", [], 0, 0, 0, 0, 0⟩).rawData))

/-! Supporting lemmas. -/

theorem jsSum_eq_sum (l : List ℚ) : jsSum l = l.sum :=
  (List.sum_eq_foldl).symm

theorem length_insertStable {α : Type} (lt : α → α → Bool) (x : α) (l : List α) :
    (insertStable lt x l).length = l.length + 1 := by
  induction l with
  | nil => rfl
  | cons y ys ih => simp only [insertStable]; split <;> simp [ih]

theorem length_sortStable {α : Type} (lt : α → α → Bool) (l : List α) :
    (sortStable lt l).length = l.length := by
  induction l with
  | nil => rfl
  | cons y ys ih => simp [sortStable, length_insertStable, ih]

theorem length_sortNumAsc (l : List ℚ) : (sortNumAsc l).length = l.length :=
  length_sortStable _ _

theorem insertStable_perm {α : Type} (lt : α → α → Bool) (x : α) (l : List α) :
    List.Perm (insertStable lt x l) (x :: l) := by
  induction l with
  | nil => exact List.Perm.refl _
  | cons y ys ih =>
    simp only [insertStable]
    split
    · exact (ih.cons y).trans (List.Perm.swap x y ys)
    · exact List.Perm.refl _

theorem sortStable_perm {α : Type} (lt : α → α → Bool) (l : List α) :
    List.Perm (sortStable lt l) l := by
  induction l with
  | nil => exact List.Perm.refl _
  | cons y ys ih => exact (insertStable_perm lt y _).trans (ih.cons y)

theorem jsSum_eq_fin (l : List ℚ) : jsSum l = ∑ i : Fin l.length, l.get i := by
  rw [jsSum_eq_sum, ← Fin.sum_univ_get]
  simp [List.get_eq_getElem]

theorem jsSum_map_eq_fin (f : ℚ → ℚ) (l : List ℚ) :
    jsSum (l.map f) = ∑ i : Fin l.length, f (l.get i) := by
  rw [jsSum_eq_sum, ← Fin.sum_univ_get']
  simp [List.get_eq_getElem]

theorem double_sum_sub_sq {n : ℕ} (g : Fin n → ℚ) :
    ∑ a : Fin n, ∑ b : Fin n, (g a - g b) ^ 2 =
      2 * ((n : ℚ) * (∑ k, g k * g k) - (∑ k, g k) ^ 2) := by
  have inner : ∀ a : Fin n,
      ∑ b : Fin n, (g a - g b) ^ 2 =
        (n : ℚ) * (g a * g a) - 2 * g a * (∑ k, g k) + (∑ k, g k * g k) := by
    intro a
    have expand : ∀ b : Fin n, (g a - g b) ^ 2 = g a * g a - (2 * g a) * g b + g b * g b :=
      fun b => by ring
    calc
      ∑ b : Fin n, (g a - g b) ^ 2
          = ∑ b : Fin n, (g a * g a - (2 * g a) * g b + g b * g b) :=
        Finset.sum_congr rfl (fun b _ => expand b)
      _ = (∑ _b : Fin n, g a * g a) - (∑ b : Fin n, (2 * g a) * g b) +
            (∑ b : Fin n, g b * g b) := by
        rw [Finset.sum_add_distrib, Finset.sum_sub_distrib]
      _ = (n : ℚ) * (g a * g a) - 2 * g a * (∑ k, g k) + (∑ k, g k * g k) := by
        rw [Finset.sum_const, Finset.card_univ, Fintype.card_fin, nsmul_eq_mul,
          ← Finset.mul_sum]
  calc
    ∑ a : Fin n, ∑ b : Fin n, (g a - g b) ^ 2
        = ∑ a : Fin n,
            ((n : ℚ) * (g a * g a) - (2 * (∑ k, g k)) * g a + (∑ k, g k * g k)) := by
      refine Finset.sum_congr rfl (fun a _ => ?_)
      rw [inner a]; ring
    _ = (∑ a : Fin n, (n : ℚ) * (g a * g a)) -
          (∑ a : Fin n, (2 * (∑ k, g k)) * g a) + (∑ _a : Fin n, ∑ k, g k * g k) := by
      rw [Finset.sum_add_distrib, Finset.sum_sub_distrib]
    _ = 2 * ((n : ℚ) * (∑ k, g k * g k) - (∑ k, g k) ^ 2) := by
      rw [← Finset.mul_sum, ← Finset.mul_sum, Finset.sum_const, Finset.card_univ,
        Fintype.card_fin, nsmul_eq_mul]
      ring

theorem sq_sum_le_mul_sum_sq {n : ℕ} (g : Fin n → ℚ) :
    (∑ k, g k) ^ 2 ≤ (n : ℚ) * ∑ k, g k * g k := by
  have h := double_sum_sub_sq g
  have hnn : (0 : ℚ) ≤ ∑ a : Fin n, ∑ b : Fin n, (g a - g b) ^ 2 :=
    Finset.sum_nonneg fun a _ => Finset.sum_nonneg fun b _ => sq_nonneg _
  linarith

theorem sq_sum_lt_mul_sum_sq {n : ℕ} (g : Fin n → ℚ) (i j : Fin n) (hij : g i ≠ g j) :
    (∑ k, g k) ^ 2 < (n : ℚ) * ∑ k, g k * g k := by
  have h := double_sum_sub_sq g
  have hterm : (0 : ℚ) < (g i - g j) ^ 2 :=
    pow_two_pos_of_ne_zero (sub_ne_zero.mpr hij)
  have hinner : (g i - g j) ^ 2 ≤ ∑ b : Fin n, (g i - g b) ^ 2 :=
    Finset.single_le_sum (f := fun b => (g i - g b) ^ 2) (fun b _ => sq_nonneg _)
      (Finset.mem_univ j)
  have houter : ∑ b : Fin n, (g i - g b) ^ 2 ≤ ∑ a : Fin n, ∑ b : Fin n, (g a - g b) ^ 2 :=
    Finset.single_le_sum (f := fun a => ∑ b : Fin n, (g a - g b) ^ 2)
      (fun a _ => Finset.sum_nonneg fun b _ => sq_nonneg _) (Finset.mem_univ i)
  linarith

theorem corrFactor_nonneg (x : List ℚ) : 0 ≤ corrFactor x.length x := by
  rw [corrFactor, jsSum_map_eq_fin, jsSum_eq_fin]
  have := sq_sum_le_mul_sum_sq (fun i : Fin x.length => x.get i)
  linarith

theorem corrFactor_pos (x : List ℚ) (h : ∃ a ∈ x, ∃ b ∈ x, a ≠ b) :
    0 < corrFactor x.length x := by
  obtain ⟨a, ha, b, hb, hab⟩ := h
  obtain ⟨i, hi⟩ := List.mem_iff_get.mp ha
  obtain ⟨j, hj⟩ := List.mem_iff_get.mp hb
  have hne : x.get i ≠ x.get j := by rw [hi, hj]; exact hab
  rw [corrFactor, jsSum_map_eq_fin, jsSum_eq_fin]
  have := sq_sum_lt_mul_sum_sq (fun k : Fin x.length => x.get k) i j hne
  linarith

theorem trendSumX_eq (n : ℕ) : trendSumX n = (n : ℚ) * ((n : ℚ) - 1) / 2 := by
  induction n with
  | zero => simp [trendSumX, jsSum]
  | succ k ih =>
    rw [trendSumX, jsSum_eq_sum, List.range_succ, List.map_append, List.sum_append,
      List.map_singleton, List.sum_singleton]
    rw [trendSumX, jsSum_eq_sum] at ih
    rw [ih]
    push_cast
    ring

theorem trendSumX2_eq (n : ℕ) :
    trendSumX2 n = (n : ℚ) * ((n : ℚ) - 1) * (2 * (n : ℚ) - 1) / 6 := by
  induction n with
  | zero => simp [trendSumX2, jsSum]
  | succ k ih =>
    rw [trendSumX2, jsSum_eq_sum, List.range_succ, List.map_append, List.sum_append,
      List.map_singleton, List.sum_singleton]
    rw [trendSumX2, jsSum_eq_sum] at ih
    rw [ih]
    push_cast
    ring

theorem trendDenominator_pos {n : ℕ} (h : 2 ≤ n) : 0 < trendDenominator n := by
  have hn : (2 : ℚ) ≤ (n : ℚ) := by exact_mod_cast h
  rw [trendDenominator, trendSumX_eq, trendSumX2_eq]
  nlinarith [hn, sq_nonneg ((n : ℚ) - 1), sq_nonneg ((n : ℚ) + 1)]

/-- C2 (amended): when fewer than 2 points are supplied, `calculateTrend`
returns slope 0, forecast 0 (not the last value) and direction stable; for
n ≥ 2 the least-squares denominator `n·Σx² − (Σx)²` is strictly positive,
so the zero-denominator fallback (slope 0, forecast = last value, stable)
can never fire. -/
theorem calculateTrend_degenerate (values : List ℚ) :
    (values.length < 2 → calculateTrend values = ⟨0, none, 0, .stable⟩) ∧
    (2 ≤ values.length → 0 < trendDenominator values.length) := by
  constructor
  · intro h
    simp [calculateTrend, h]
  · intro h
    exact trendDenominator_pos h

/-- Witness for C2's theorem at the concrete inputs `[42]` (one point) and
`[0, 1]` (two points). -/
theorem calculateTrend_degenerate_witness :
    calculateTrend [(42 : ℚ)] = ⟨0, none, 0, .stable⟩ ∧
      0 < trendDenominator ([(0 : ℚ), 1].length) :=
  ⟨(calculateTrend_degenerate [(42 : ℚ)]).1 (by decide),
    (calculateTrend_degenerate [(0 : ℚ), 1]).2 (by decide)⟩

/-- C2 (counterexample): on the one-element sequence `[42]` the code returns
forecast 0, not the last value 42 that the claim prescribes for `n < 2`. -/
theorem calculateTrend_single_forecast_not_last :
    (calculateTrend [(42 : ℚ)]).nextVal = 0 ∧ (calculateTrend [(42 : ℚ)]).nextVal ≠ 42 := by
  decide

/-- C5: `detectAnomalies` returns nothing for fewer than 4 points; for
n ≥ 4 it returns exactly the input values strictly outside
`[Q1 − 1.5·IQR, Q3 + 1.5·IQR]` with `Q1`/`Q3` read at sorted indices
`⌊n/4⌋` and `⌊3n/4⌋`; in particular on `[1,2,3,4,5,100]` it flags exactly
100. -/
theorem detectAnomalies_spec (values : List ℚ) :
    (values.length < 4 → detectAnomalies values = []) ∧
    (4 ≤ values.length →
      detectAnomalies values =
        (let sorted := sortNumAsc values
         let q1 := sorted.getD (values.length / 4) 0
         let q3 := sorted.getD (values.length * 3 / 4) 0
         values.filter (fun v => v < q1 - 3 / 2 * (q3 - q1) ∨ v > q3 + 3 / 2 * (q3 - q1)))) ∧
    detectAnomalies [1, 2, 3, 4, 5, 100] = [100] := by
  refine ⟨fun h => by simp [detectAnomalies, h], fun h => ?_,
    by norm_num [detectAnomalies, sortNumAsc, sortStable, insertStable, List.getD]⟩
  have h4 : ¬ values.length < 4 := by omega
  simp only [detectAnomalies, h4, if_false, length_sortNumAsc]

/-- Witness for C5's theorem at `[1,2,3]` (short input) and
`[1,2,3,4,5,100]`. -/
theorem detectAnomalies_spec_witness :
    detectAnomalies [(1 : ℚ), 2, 3] = [] ∧
      detectAnomalies [(1 : ℚ), 2, 3, 4, 5, 100] =
        (let sorted := sortNumAsc [(1 : ℚ), 2, 3, 4, 5, 100]
         let q1 := sorted.getD ([(1 : ℚ), 2, 3, 4, 5, 100].length / 4) 0
         let q3 := sorted.getD ([(1 : ℚ), 2, 3, 4, 5, 100].length * 3 / 4) 0
         [(1 : ℚ), 2, 3, 4, 5, 100].filter
           (fun v => v < q1 - 3 / 2 * (q3 - q1) ∨ v > q3 + 3 / 2 * (q3 - q1))) :=
  ⟨(detectAnomalies_spec [(1 : ℚ), 2, 3]).1 (by decide),
    (detectAnomalies_spec [(1 : ℚ), 2, 3, 4, 5, 100]).2.1 (by decide)⟩

theorem zip_self_map (x : List ℚ) :
    (x.zip x).map (fun p => p.1 * p.2) = x.map (fun v => v * v) := by
  induction x with
  | nil => rfl
  | cons a l ih => simp [ih]

theorem corrNum_self (x : List ℚ) : corrNum x x = corrFactor x.length x := by
  rw [corrNum, corrSumXY, zip_self_map, corrFactor]
  ring

theorem corrDenSq_self (x : List ℚ) :
    corrDenSq x x = corrFactor x.length x * corrFactor x.length x := rfl

theorem corrFactor_replicate (n : ℕ) (c : ℚ) :
    corrFactor (List.replicate n c).length (List.replicate n c) = 0 := by
  simp [corrFactor, jsSum_eq_sum, List.map_replicate, List.sum_replicate, nsmul_eq_mul]
  ring

theorem corrDenSq_zero_corr (x y : List ℚ) (h : corrDenSq x y = 0) :
    calculateCorrelation x y = 0 := by
  unfold calculateCorrelation
  split_ifs with h1 h2
  · rfl
  · rfl
  · exact absurd (by rw [h]; push_cast; exact Real.sqrt_zero) h2

/-- C3: `calculateCorrelation` returns 0 on mismatched lengths, on empty
input, on a zero radicand (in particular whenever one series is constant),
and otherwise is the guarded quotient `numerator / √radicand` with a nonzero
denominator — it is a total real-valued function, never NaN/undefined. -/
theorem calculateCorrelation_spec (x y : List ℚ) :
    (x.length ≠ y.length → calculateCorrelation x y = 0) ∧
    (x = [] → calculateCorrelation x y = 0) ∧
    (corrDenSq x y = 0 → calculateCorrelation x y = 0) ∧
    (∀ c, x = List.replicate x.length c → calculateCorrelation x y = 0) ∧
    (calculateCorrelation x y = 0 ∨
      (Real.sqrt ((corrDenSq x y : ℚ) : ℝ) ≠ 0 ∧
        calculateCorrelation x y =
          (corrNum x y : ℝ) / Real.sqrt ((corrDenSq x y : ℚ) : ℝ))) := by
  refine ⟨fun h => ?_, fun h => ?_, corrDenSq_zero_corr x y, fun c hc => ?_, ?_⟩
  · rw [calculateCorrelation, if_pos (Or.inl h)]
  · rw [calculateCorrelation, if_pos (Or.inr (by simp [h]))]
  · refine corrDenSq_zero_corr x y ?_
    have h2 := corrFactor_replicate x.length c
    rw [← hc] at h2
    rw [corrDenSq, h2, zero_mul]
  · unfold calculateCorrelation
    split_ifs with h1 h2
    · exact Or.inl rfl
    · exact Or.inl rfl
    · exact Or.inr ⟨h2, rfl⟩

/-- Witness for C3's theorem: mismatched lengths, empty input, and a
constant first series, each at concrete inputs. -/
theorem calculateCorrelation_spec_witness :
    calculateCorrelation [(1 : ℚ)] [(1 : ℚ), 2] = 0 ∧
      calculateCorrelation ([] : List ℚ) ([] : List ℚ) = 0 ∧
      calculateCorrelation [(3 : ℚ), 3] [(1 : ℚ), 2] = 0 :=
  ⟨(calculateCorrelation_spec _ _).1 (by decide),
    (calculateCorrelation_spec _ _).2.1 rfl,
    (calculateCorrelation_spec [(3 : ℚ), 3] [(1 : ℚ), 2]).2.2.2.1 3 (by decide)⟩

/-- C8: the correlation of a nonempty, non-constant series with itself is
exactly 1 (the radicand becomes the square of the strictly positive factor
`n·Σx² − (Σx)²`, whose square root then cancels the numerator). -/
theorem calculateCorrelation_self_one (x : List ℚ)
    (h : ∃ a ∈ x, ∃ b ∈ x, a ≠ b) : calculateCorrelation x x = 1 := by
  have hx : x ≠ [] := by
    rintro rfl
    obtain ⟨a, ha, -⟩ := h
    exact absurd ha (List.not_mem_nil a)
  have hpos := corrFactor_pos x h
  have hlen : ¬(x.length ≠ x.length ∨ x.length = 0) := by
    push_neg
    exact ⟨rfl, List.length_pos.mpr hx |>.ne'⟩
  have hsqrt : Real.sqrt ((corrDenSq x x : ℚ) : ℝ) = ((corrFactor x.length x : ℚ) : ℝ) := by
    rw [corrDenSq_self]
    push_cast
    exact Real.sqrt_mul_self (by exact_mod_cast hpos.le)
  rw [calculateCorrelation, if_neg hlen, hsqrt,
    if_neg (show ((corrFactor x.length x : ℚ) : ℝ) ≠ 0 by exact_mod_cast hpos.ne'),
    corrNum_self]
  exact div_self (by exact_mod_cast hpos.ne')

/-- Witness for C8's theorem at the concrete non-constant series `[0, 1]`. -/
theorem calculateCorrelation_self_one_witness :
    calculateCorrelation [(0 : ℚ), 1] [(0 : ℚ), 1] = 1 :=
  calculateCorrelation_self_one [(0 : ℚ), 1] (by decide)

/-- C10: every diagonal cell of `CorrelationView`'s matrix equals 1 — the
diagonal is written as the constant 1 without calling the correlation
function — even though for a constant or empty raw series the correlation of
the series with itself is 0, as the second conjunct records. -/
theorem correlationGrid_diag (kpis : List NumericKPI) (i : ℕ) (h : i < kpis.length) :
    ((correlationGrid kpis).getD i []).getD i 0 = 1 ∧
      ∀ (n : ℕ) (c : ℚ),
        calculateCorrelation (List.replicate n c) (List.replicate n c) = 0 := by
  constructor
  · rw [correlationGrid]
    simp only [List.getD_eq_getElem?_getD, List.getElem?_map, List.getElem?_range,
      h, if_true, Option.map_some', Option.getD_some]
  · intro n c
    refine corrDenSq_zero_corr _ _ ?_
    rw [corrDenSq, corrFactor_replicate, zero_mul]

/-- Witness for C10's theorem applied at index 1 of `witnessKPIs`. -/
theorem correlationGrid_diag_witness :
    ((correlationGrid witnessKPIs).getD 1 []).getD 1 0 = 1 ∧
      calculateCorrelation (List.replicate 2 (5 : ℚ)) (List.replicate 2 (5 : ℚ)) = 0 := by
  obtain ⟨h1, h2⟩ := correlationGrid_diag witnessKPIs 1 (by simp [witnessKPIs])
  exact ⟨h1, h2 2 5⟩

theorem foldl_filter_invariant {σ α : Type} (f : σ → α → σ) (p : α → Bool)
    (hf : ∀ s row, p row = false → f s row = s) :
    ∀ (data : List α) (s : σ), data.foldl f s = (data.filter p).foldl f s := by
  intro data
  induction data with
  | nil => intro s; rfl
  | cons r rs ih =>
    intro s
    by_cases h : p r
    · rw [List.filter_cons_of_pos h, List.foldl_cons, List.foldl_cons, ih]
    · rw [List.filter_cons_of_neg (by simpa using h), List.foldl_cons,
        hf s r (by simpa using h), ih]

theorem foldl_congr_mem {σ α : Type} (f g : σ → α → σ) (l : List α)
    (h : ∀ row ∈ l, ∀ s, f s row = g s row) : ∀ s, l.foldl f s = l.foldl g s := by
  induction l with
  | nil => intro s; rfl
  | cons r rs ih =>
    intro s
    rw [List.foldl_cons, List.foldl_cons, h r (List.mem_cons_self r rs) s]
    exact ih (fun row hm s' => h row (List.mem_cons_of_mem r hm) s') (g s r)

theorem truthy_not_missing {v : Value} (h : truthy v = true) : isMissing v = false := by
  cases v <;> simp_all [truthy, isMissing]

theorem pivotStep_skip (rowDim colDim valDim : String) (func : AggFunc) (st : PivotState)
    (row : Row)
    (h : (rowDim ≠ "None" ∧ isMissing (getVal row rowDim) = true) ∨
      (colDim ≠ "None" ∧ isMissing (getVal row colDim) = true)) :
    MathEngine.pivotStep rowDim colDim valDim func st row = st := by
  rcases h with h1 | h2
  · simp [MathEngine.pivotStep, h1]
  · by_cases h1 : rowDim ≠ "None" ∧ isMissing (getVal row rowDim) = true
    · simp [MathEngine.pivotStep, h1]
    · simp [MathEngine.pivotStep, h1, h2]

/-- C1 (amended, about the first variant): `MathEngine.performPivot` skips
rows with a missing (absent/null/empty) field at a real row or column
dimension entirely — dropping every such row from the dataset leaves the
result unchanged, so such rows contribute no row key, no column key and no
bucket entry; the row and column checks are independent (a row missing only
its row-dimension value is dropped even when its column-dimension value is
present).  The second variant's `performPivot` instead coerces falsy
dimension values to the key "Unknown" and keeps the row (see the
counterexample theorem). -/
theorem MathEngine.performPivot_skips_missing (data : List Row)
    (rowDim colDim valDim : String) (func : AggFunc) :
    MathEngine.performPivot data rowDim colDim valDim func =
      MathEngine.performPivot
        (data.filter (fun row =>
          decide (¬(rowDim ≠ "None" ∧ isMissing (getVal row rowDim) = true)) &&
            decide (¬(colDim ≠ "None" ∧ isMissing (getVal row colDim) = true))))
        rowDim colDim valDim func := by
  unfold MathEngine.performPivot
  refine congrArg (pivotFinalize func) ?_
  refine foldl_filter_invariant _ _ (fun s row hp => ?_) data _
  refine pivotStep_skip rowDim colDim valDim func s row ?_
  have := hp
  simp only [Bool.and_eq_false_iff, decide_eq_false_iff_not, not_not] at this
  exact this

/-- C1 (counterexample): on a dataset with one all-absent row and a real row
dimension, the second variant's `performPivot` does not skip the row — it
registers the row key "Unknown" — so the claim's skip behaviour does not
hold of that variant. -/
theorem performPivot_missing_row_not_skipped :
    (performPivot [([] : Row)] "a" "None" "v" .Sum).rowKeys = [Value.str "Unknown"] ∧
      (performPivot [([] : Row)] "a" "None" "v" .Sum).rowKeys ≠ [] := by
  decide

theorem pivotStep_eq_coerce (rowDim colDim valDim : String) (func : AggFunc) (row : Row)
    (hr : rowDim ≠ "None" → truthy (getVal row rowDim) = true)
    (hc : colDim ≠ "None" → truthy (getVal row colDim) = true) (st : PivotState) :
    MathEngine.pivotStep rowDim colDim valDim func st row =
      pivotStepCoerce rowDim colDim valDim func st row := by
  by_cases h1 : rowDim = "None"
  · by_cases h2 : colDim = "None"
    · simp [MathEngine.pivotStep, pivotStepCoerce, h1, h2]
    · have ht := hc h2
      simp [MathEngine.pivotStep, pivotStepCoerce, h1, h2, ht, truthy_not_missing ht]
  · have htr := hr h1
    by_cases h2 : colDim = "None"
    · simp [MathEngine.pivotStep, pivotStepCoerce, h1, h2, htr, truthy_not_missing htr]
    · have htc := hc h2
      simp [MathEngine.pivotStep, pivotStepCoerce, h1, h2, htr, htc,
        truthy_not_missing htr, truthy_not_missing htc]

/-- C9 (amended): the two pivot engines agree on every dataset in which each
row carries a truthy value at every real (non-"None") row/column dimension;
they are not equivalent in general (see the counterexample theorem): on
falsy dimension values the first variant skips the row while the second
coerces the key to "Unknown". -/
theorem performPivot_variants_agree (data : List Row) (rowDim colDim valDim : String)
    (func : AggFunc)
    (h : ∀ row ∈ data,
      (rowDim ≠ "None" → truthy (getVal row rowDim) = true) ∧
      (colDim ≠ "None" → truthy (getVal row colDim) = true)) :
    MathEngine.performPivot data rowDim colDim valDim func =
      performPivot data rowDim colDim valDim func := by
  unfold MathEngine.performPivot performPivot
  refine congrArg (pivotFinalize func) ?_
  exact foldl_congr_mem _ _ data
    (fun row hm s => pivotStep_eq_coerce rowDim colDim valDim func row
      (h row hm).1 (h row hm).2 s) _

/-- Witness for C9's theorem on the specification's example dataset. -/
theorem performPivot_variants_agree_witness :
    MathEngine.performPivot
        [[("region", Value.str "A"), ("amount", Value.num 10)],
          [("region", Value.str "A"), ("amount", Value.num 20)],
          [("region", Value.str "B"), ("amount", Value.num 5)]]
        "region" "None" "amount" .Sum =
      performPivot
        [[("region", Value.str "A"), ("amount", Value.num 10)],
          [("region", Value.str "A"), ("amount", Value.num 20)],
          [("region", Value.str "B"), ("amount", Value.num 5)]]
        "region" "None" "amount" .Sum :=
  performPivot_variants_agree _ _ _ _ _ (by decide)

/-- C9 (counterexample): the two pivot variants are not equivalent — on a
dataset with one all-absent row the first variant produces no keys at all
while the second produces row key "Unknown". -/
theorem performPivot_variants_differ :
    MathEngine.performPivot [([] : Row)] "a" "None" "v" .Sum ≠
      performPivot [([] : Row)] "a" "None" "v" .Sum := by
  decide

theorem not_missing_false {b : Bool} (h : ¬ b = true) : b = false := by
  cases b
  · rfl
  · exact absurd rfl h

theorem classifyLoop_iff (s : List Value) (c : ℕ) :
    (decide (0 < (classifyLoop s c).2) && (classifyLoop s c).1) = true ↔
      ((0 < c ∨ ∃ v ∈ s, isMissing v = false) ∧
        ∀ v ∈ s, isMissing v = false → toNumber v ≠ JsNum.nan) := by
  induction s generalizing c with
  | nil => simp [classifyLoop]
  | cons v rest ih =>
    by_cases hm : isMissing v = true
    · have hl : classifyLoop (v :: rest) c = classifyLoop rest c := by
        simp [classifyLoop, hm]
      rw [hl, ih]
      constructor
      · rintro ⟨h1, h2⟩
        refine ⟨?_, ?_⟩
        · rcases h1 with hc | ⟨w, hw, hwm⟩
          · exact Or.inl hc
          · exact Or.inr ⟨w, List.mem_cons_of_mem v hw, hwm⟩
        · intro w hw hwm
          rcases List.mem_cons.mp hw with rfl | hw'
          · rw [hm] at hwm; cases hwm
          · exact h2 w hw' hwm
      · rintro ⟨h1, h2⟩
        refine ⟨?_, fun w hw hwm => h2 w (List.mem_cons_of_mem v hw) hwm⟩
        rcases h1 with hc | ⟨w, hw, hwm⟩
        · exact Or.inl hc
        · rcases List.mem_cons.mp hw with rfl | hw'
          · rw [hm] at hwm; cases hwm
          · exact Or.inr ⟨w, hw', hwm⟩
    · have hm' : isMissing v = false := not_missing_false hm
      by_cases hn : toNumber v = JsNum.nan
      · have hl : classifyLoop (v :: rest) c = (false, c + 1) := by
          simp [classifyLoop, hm', hn]
        rw [hl]
        refine iff_of_false (by simp) ?_
        rintro ⟨-, h2⟩
        exact (h2 v (List.mem_cons_self v rest) hm') hn
      · have hl : classifyLoop (v :: rest) c = classifyLoop rest (c + 1) := by
          simp [classifyLoop, hm', hn]
        rw [hl, ih]
        constructor
        · rintro ⟨-, h2⟩
          refine ⟨Or.inr ⟨v, List.mem_cons_self v rest, hm'⟩, ?_⟩
          intro w hw hwm
          rcases List.mem_cons.mp hw with rfl | hw'
          · exact hn
          · exact h2 w hw' hwm
        · rintro ⟨-, h2⟩
          exact ⟨Or.inl (Nat.succ_pos c),
            fun w hw hwm => h2 w (List.mem_cons_of_mem v hw) hwm⟩

/-- C4 (amended): the classifier inspects the first up-to-50 rows of the
column and classifies it Numeric iff at least one inspected value is present
(not absent/null/empty) and every present inspected value converts to a
non-NaN number under JavaScript Number coercion; a column with no present
value among the inspected rows is Categorical.  (The claim's "converts to a
finite number" is too strong: a value converting to an infinity, such as the
string "Infinity", also counts as numeric evidence — see the counterexample
theorem.) -/
theorem isNumericCol_iff (json : List Row) (header : String) :
    isNumericCol json header = true ↔
      ((∃ v ∈ (json.take 50).map (fun row => getVal row header), isMissing v = false) ∧
        ∀ v ∈ (json.take 50).map (fun row => getVal row header),
          isMissing v = false → toNumber v ≠ JsNum.nan) := by
  unfold isNumericCol
  rw [classifyLoop_iff]
  simp

/-- Witness for C4's theorem: the right-to-left direction applied to a
one-cell numeric column. -/
theorem isNumericCol_iff_witness :
    isNumericCol [[("c", Value.num 5)]] "c" = true :=
  (isNumericCol_iff [[("c", Value.num 5)]] "c").mpr
    ⟨⟨Value.num 5, by decide, by decide⟩, by decide⟩

/-- C4 (counterexample): a column whose sole (present) value is the string
"Infinity" is classified Numeric by the code, yet that value does not
convert to a finite number — `Number("Infinity")` is the infinity — so the
claim's "Numeric iff every present inspected value converts to a finite
number" fails at this input. -/
theorem isNumericCol_infinity_cex :
    isNumericCol [[("c", Value.str "Infinity")]] "c" = true ∧
      toNumber (Value.str "Infinity") = JsNum.inf ∧
      ¬ (∀ v ∈ ([[("c", Value.str "Infinity")]].take 50).map
            (fun row => getVal row "c"),
          isMissing v = false → ∃ q : ℚ, toNumber v = JsNum.fin q) := by
  refine ⟨by decide, by decide, fun hall => ?_⟩
  obtain ⟨q, hq⟩ := hall (Value.str "Infinity") (by decide) (by decide)
  have h2 : toNumber (Value.str "Infinity") = JsNum.inf := by decide
  rw [h2] at hq
  exact JsNum.noConfusion hq

theorem bumpCount_lookup (m : List (String × ℕ)) (s k : String) :
    (bumpCount m s).lookup k =
      if k = s then some (((m.lookup k).getD 0) + 1) else m.lookup k := by
  induction m with
  | nil =>
    by_cases hk : k = s
    · subst hk; simp [bumpCount, List.lookup]
    · have hb : (k == s) = false := beq_eq_false_iff_ne.mpr hk
      simp [bumpCount, List.lookup, hk, hb]
  | cons q rest ih =>
    obtain ⟨a, n⟩ := q
    by_cases has : a = s
    · subst has
      by_cases hk : k = a
      · subst hk; simp [bumpCount, List.lookup]
      · have hb : (k == a) = false := beq_eq_false_iff_ne.mpr hk
        simp [bumpCount, List.lookup, hk, hb]
    · by_cases hk : k = a
      · subst hk
        simp [bumpCount, List.lookup, has]
      · have hb : (k == a) = false := beq_eq_false_iff_ne.mpr hk
        simp [bumpCount, List.lookup, has, hk, hb, ih]

theorem bumpCount_keys (m : List (String × ℕ)) (s : String) :
    (bumpCount m s).map Prod.fst =
      if s ∈ m.map Prod.fst then m.map Prod.fst else m.map Prod.fst ++ [s] := by
  induction m with
  | nil => simp [bumpCount]
  | cons q rest ih =>
    obtain ⟨a, n⟩ := q
    by_cases has : a = s
    · subst has
      simp [bumpCount]
    · by_cases hs : s ∈ rest.map Prod.fst
      · simp [bumpCount, has, hs, Ne.symm has, ih]
      · simp [bumpCount, has, hs, Ne.symm has, ih]

theorem foldl_bumpCount_lookup (vals : List String) (acc : List (String × ℕ)) (k : String) :
    ((vals.foldl bumpCount acc).lookup k).getD 0 =
      (acc.lookup k).getD 0 + vals.countP (fun s => s = k) := by
  induction vals generalizing acc with
  | nil => simp
  | cons s rest ih =>
    rw [List.foldl_cons, ih (bumpCount acc s), bumpCount_lookup, List.countP_cons]
    by_cases hk : k = s
    · simp [hk]
      omega
    · have : ¬ (s = k) := fun he => hk he.symm
      simp [hk, this]

theorem foldl_bumpCount_keys_mem (vals : List String) (acc : List (String × ℕ))
    (k : String) :
    k ∈ (vals.foldl bumpCount acc).map Prod.fst ↔
      k ∈ acc.map Prod.fst ∨ k ∈ vals := by
  induction vals generalizing acc with
  | nil => simp
  | cons s rest ih =>
    rw [List.foldl_cons, ih (bumpCount acc s), bumpCount_keys]
    by_cases hs : s ∈ acc.map Prod.fst
    · simp only [hs, if_true, List.mem_cons]
      constructor
      · rintro (h | h)
        · exact Or.inl h
        · exact Or.inr (Or.inr h)
      · rintro (h | rfl | h)
        · exact Or.inl h
        · exact Or.inl hs
        · exact Or.inr h
    · simp only [hs, if_false, List.mem_append, List.mem_singleton, List.mem_cons]
      tauto

theorem foldl_bumpCount_keys_nodup (vals : List String) (acc : List (String × ℕ))
    (h : (acc.map Prod.fst).Nodup) : ((vals.foldl bumpCount acc).map Prod.fst).Nodup := by
  induction vals generalizing acc with
  | nil => exact h
  | cons s rest ih =>
    rw [List.foldl_cons]
    refine ih (bumpCount acc s) ?_
    rw [bumpCount_keys]
    by_cases hs : s ∈ acc.map Prod.fst
    · simpa [hs] using h
    · simp only [hs, if_false]
      refine List.Nodup.append h (List.nodup_singleton s) ?_
      intro a ha hb
      rw [List.mem_singleton] at hb
      exact hs (hb ▸ ha)

theorem lookup_eq_of_mem_nodup {m : List (String × ℕ)}
    (h : (m.map Prod.fst).Nodup) (p : String × ℕ) (hp : p ∈ m) :
    m.lookup p.1 = some p.2 := by
  induction m with
  | nil => cases hp
  | cons q rest ih =>
    rcases List.mem_cons.mp hp with rfl | hp'
    · simp [List.lookup]
    · have hq : ¬ (p.1 == q.1) = true := by
        simp only [beq_iff_eq]
        intro he
        exact (List.nodup_cons.mp h).1 (he ▸ List.mem_map_of_mem Prod.fst hp')
      simp only [List.lookup, hq, if_false]
      exact ih (List.nodup_cons.mp h).2 hp'

theorem entriesOrder_perm {α : Type} (l : List (String × α)) :
    List.Perm (entriesOrder l) l := by
  rw [entriesOrder]
  refine List.Perm.trans (List.Perm.append (sortStable_perm _ _) (List.Perm.refl _)) ?_
  exact List.filter_append_perm _ l

theorem buildCounts_mem_count (vals : List String) (p : String × ℕ)
    (hp : p ∈ buildCounts vals) :
    p.2 = vals.countP (fun s => s = p.1) ∧ p.1 ∈ vals := by
  have hnd : ((buildCounts vals).map Prod.fst).Nodup :=
    foldl_bumpCount_keys_nodup vals [] (by simp)
  have hlk := lookup_eq_of_mem_nodup hnd p hp
  have hcount : ((buildCounts vals).lookup p.1).getD 0 =
      (([] : List (String × ℕ)).lookup p.1).getD 0 + vals.countP (fun s => s = p.1) :=
    foldl_bumpCount_lookup vals [] p.1
  rw [hlk] at hcount
  simp only [Option.getD_some] at hcount
  refine ⟨by simpa using hcount, ?_⟩
  have hmem : p.1 ∈ (buildCounts vals).map Prod.fst := List.mem_map_of_mem Prod.fst hp
  rcases (foldl_bumpCount_keys_mem vals [] p.1).mp hmem with h | h
  · simp at h
  · exact h

theorem buildCounts_length (vals : List String) :
    (buildCounts vals).length = vals.toFinset.card := by
  have hnd : ((buildCounts vals).map Prod.fst).Nodup :=
    foldl_bumpCount_keys_nodup vals [] (by simp)
  have hset : ((buildCounts vals).map Prod.fst).toFinset = vals.toFinset := by
    ext k
    simp only [List.mem_toFinset]
    have h1 : k ∈ (buildCounts vals).map Prod.fst ↔
        k ∈ ([] : List (String × ℕ)).map Prod.fst ∨ k ∈ vals :=
      foldl_bumpCount_keys_mem vals [] k
    rw [h1]
    simp
  calc (buildCounts vals).length
      = ((buildCounts vals).map Prod.fst).length := (List.length_map _ _).symm
    _ = ((buildCounts vals).map Prod.fst).toFinset.card :=
        (List.toFinset_card_of_nodup hnd).symm
    _ = vals.toFinset.card := by rw [hset]

/-- C6 (amended): the Categorical KPI of a column carries the column name;
its `topValues` are the first five entries of the frequency table of the
column's coerced value list — every falsy cell (absent, null, empty string,
and also the number 0) coerced to the literal "N/A" — enumerated in
JavaScript object-key order (integer-like value strings first, ascending,
then the rest in first-encountered order) and stably sorted by descending
count; each listed entry counts exactly the occurrences of its (distinct)
value, and `uniqueCount` is the number of distinct coerced values. -/
theorem categoricalKPIof_spec (json : List Row) (col : String) :
    (categoricalKPIof json col).column = col ∧
    (categoricalKPIof json col).topValues =
      (sortStable (fun a b => decide (b.2 < a.2))
        (entriesOrder (buildCounts (catColValues json col)))).take 5 ∧
    (∀ p ∈ (categoricalKPIof json col).topValues,
      p.2 = (catColValues json col).countP (fun s => s = p.1) ∧
        p.1 ∈ catColValues json col) ∧
    ((categoricalKPIof json col).topValues.map Prod.fst).Nodup ∧
    (categoricalKPIof json col).uniqueCount = (catColValues json col).toFinset.card := by
  have hperm : List.Perm
      (sortStable (fun a b => decide (b.2 < a.2))
        (entriesOrder (buildCounts (catColValues json col))))
      (buildCounts (catColValues json col)) :=
    (sortStable_perm _ _).trans (entriesOrder_perm _)
  have hnd : ((buildCounts (catColValues json col)).map Prod.fst).Nodup :=
    foldl_bumpCount_keys_nodup (catColValues json col) [] (by simp)
  refine ⟨rfl, rfl, ?_, ?_, ?_⟩
  · intro p hp
    have hp' : p ∈ sortStable (fun a b => decide (b.2 < a.2))
        (entriesOrder (buildCounts (catColValues json col))) :=
      List.mem_of_mem_take hp
    exact buildCounts_mem_count _ p (hperm.mem_iff.mp hp')
  · have hnd2 : ((sortStable (fun a b => decide (b.2 < a.2))
        (entriesOrder (buildCounts (catColValues json col)))).map Prod.fst).Nodup :=
      ((hperm.map Prod.fst).nodup_iff).mpr hnd
    show (((sortStable (fun a b => decide (b.2 < a.2))
      (entriesOrder (buildCounts (catColValues json col)))).take 5).map Prod.fst).Nodup
    rw [List.map_take]
    exact hnd2.sublist (List.take_sublist 5 _)
  · show (sortStable (fun a b => decide (b.2 < a.2))
        (entriesOrder (buildCounts (catColValues json col)))).length =
      (catColValues json col).toFinset.card
    rw [hperm.length_eq, buildCounts_length]

/-- Witness for C6's theorem on a concrete three-row column, reading off the
count of the entry ("u", 2). -/
theorem categoricalKPIof_spec_witness :
    (categoricalKPIof [[("c", Value.str "u")], [("c", Value.str "u")],
        [("c", Value.str "w")]] "c").column = "c" ∧
      (("u", 2).2 =
          (catColValues [[("c", Value.str "u")], [("c", Value.str "u")],
            [("c", Value.str "w")]] "c").countP (fun s => s = ("u", 2).1) ∧
        ("u", 2).1 ∈ catColValues [[("c", Value.str "u")], [("c", Value.str "u")],
          [("c", Value.str "w")]] "c") :=
  ⟨(categoricalKPIof_spec _ "c").1,
    (categoricalKPIof_spec [[("c", Value.str "u")], [("c", Value.str "u")],
      [("c", Value.str "w")]] "c").2.2.1 ("u", 2) (by decide)⟩

/-- C6 (counterexample): the coercion to "N/A" hits every falsy cell, not
only missing/absent ones — a present numeric cell 0 is counted as "N/A" —
and tie order is not first-encountered order: with values "b" then "5"
(equal counts) the integer-like key "5" is enumerated, and therefore listed,
first. -/
theorem categoricalKPIof_cex :
    (categoricalKPIof [[("c", Value.num 0)], [("c", Value.str "x")]] "c").topValues =
        [("N/A", 1), ("x", 1)] ∧
      (∀ row ∈ [[("c", Value.num 0)], [("c", Value.str "x")]],
        isMissing (getVal row "c") = false) ∧
      (categoricalKPIof [[("c", Value.str "b")], [("c", Value.str "5")]] "c").topValues =
        [("5", 1), ("b", 1)] ∧
      (categoricalKPIof [[("c", Value.str "b")], [("c", Value.str "5")]] "c").topValues ≠
        [("b", 1), ("5", 1)] := by
  decide

theorem convertRow_keys (dc : List String) (row : Row) :
    (convertRow dc row).map Prod.fst = row.map Prod.fst := by
  rw [convertRow, List.map_map]
  refine List.map_congr_left ?_
  intro kv _
  obtain ⟨k, v⟩ := kv
  by_cases hk : k ∈ dc
  · cases v <;> simp [hk]
  · simp [hk]

theorem getVal_cons (k : String) (v : Value) (rest : Row) (h : String) :
    getVal ((k, v) :: rest) h = if h = k then v else getVal rest h := by
  by_cases hk : h = k
  · subst hk; simp [getVal, List.lookup]
  · have hb : (h == k) = false := beq_eq_false_iff_ne.mpr hk
    simp [getVal, List.lookup, hb, hk]

theorem getVal_convert (dc : List String) (row : Row) (h : String) :
    getVal (convertRow dc row) h =
      (if h ∈ dc then
        match getVal row h with
        | Value.num q => Value.str (ExcelDateUtils.serialToDateStr q)
        | v => v
      else getVal row h) := by
  induction row with
  | nil =>
    by_cases hd : h ∈ dc <;> simp [convertRow, getVal, List.lookup, hd]
  | cons kv rest ih =>
    obtain ⟨k, v⟩ := kv
    have hcr : convertRow dc ((k, v) :: rest) =
        (k,
          if k ∈ dc then
            (match v with
             | Value.num q => Value.str (ExcelDateUtils.serialToDateStr q)
             | w => w)
          else v) :: convertRow dc rest := by
      by_cases hd : k ∈ dc
      · cases v <;> simp [convertRow, hd]
      · simp [convertRow, hd]
    rw [hcr, getVal_cons, getVal_cons]
    by_cases hk : h = k
    · subst hk; simp
    · simp [hk, ih]

theorem headersOf_convertDates (json : List Row) :
    headersOf (convertDates json) = headersOf json := by
  rw [convertDates]
  split
  · rfl
  · cases json with
    | nil => rfl
    | cons r rs => simp [headersOf, convertRow_keys]

theorem isLikelyDate_no_num (values : List Value)
    (h : ∀ v ∈ values, ∀ q : ℚ, v ≠ Value.num q) :
    ExcelDateUtils.isLikelyDate values = false := by
  rw [ExcelDateUtils.isLikelyDate]
  split
  · rfl
  · have hzero : (values.take (min values.length 50)).countP
        (fun v => match v with
          | Value.num q => decide (32000 < q ∧ q < 75000)
          | _ => false) = 0 := by
      rw [List.countP_eq_zero]
      intro v hv
      cases hvv : v with
      | num q => exact absurd hvv (h v (List.mem_of_mem_take hv) q)
      | str s => simp
      | null => simp
    simp only [hzero]
    simp

theorem dateColumnsOf_convertDates (json : List Row) :
    dateColumnsOf (convertDates json) = [] := by
  rw [dateColumnsOf, headersOf_convertDates, List.filter_eq_nil_iff]
  intro h hmem
  rw [convertDates]
  by_cases hdc : (dateColumnsOf json).isEmpty
  · rw [if_pos hdc]
    have hnot : h ∉ dateColumnsOf json := by
      intro hin
      rw [List.isEmpty_iff] at hdc
      rw [hdc] at hin
      cases hin
    rw [dateColumnsOf] at hnot
    have : ¬ (ExcelDateUtils.isLikelyDate (columnSample json h) = true) := by
      intro hflag
      exact hnot (List.mem_filter.mpr ⟨hmem, hflag⟩)
    simpa using this
  · rw [if_neg hdc]
    by_cases hin : h ∈ dateColumnsOf json
    · have hnonum : ∀ v ∈ columnSample (json.map (convertRow (dateColumnsOf json))) h,
          ∀ q : ℚ, v ≠ Value.num q := by
        intro v hv q
        rw [columnSample, List.map_take, List.map_map] at hv
        obtain ⟨row, hrow, hveq⟩ := List.mem_map.mp (List.mem_of_mem_take hv)
        rw [Function.comp_apply, getVal_convert, if_pos hin] at hveq
        subst hveq
        cases getVal row h <;> simp
      simp [isLikelyDate_no_num _ hnonum]
    · have hsame : columnSample (json.map (convertRow (dateColumnsOf json))) h =
          columnSample json h := by
        rw [columnSample, columnSample, List.map_take, List.map_take, List.map_map]
        refine congrArg (List.take 50) ?_
        refine List.map_congr_left ?_
        intro row _
        rw [Function.comp_apply, getVal_convert, if_neg hin]
      rw [hsame]
      rw [dateColumnsOf] at hin
      have : ¬ (ExcelDateUtils.isLikelyDate (columnSample json h) = true) := by
        intro hflag
        exact hin (List.mem_filter.mpr ⟨hmem, hflag⟩)
      simpa using this

theorem convertDates_idem (json : List Row) :
    convertDates (convertDates json) = convertDates json := by
  conv_lhs => rw [convertDates]
  rw [dateColumnsOf_convertDates]
  simp

theorem convertDates_isEmpty (json : List Row) :
    (convertDates json).isEmpty = json.isEmpty := by
  rw [convertDates]
  split
  · rfl
  · cases json <;> simp

theorem processData_eq (json : List Row) (hne : json.isEmpty = false) :
    processData json = some
      { numeric := (keysOrder ((headersOf json).filter
          (fun h => isNumericCol (convertDates json) h))).map
            (fun h => numericKPIof (convertDates json) h)
        categorical := (keysOrder ((headersOf json).filter
          (fun h => !isNumericCol (convertDates json) h))).map
            (fun h => categoricalKPIof (convertDates json) h)
        raw := convertDates json
        headers := headersOf json } := by
  rw [processData, if_neg (by simp [hne])]

/-- C7: running `processData` again on the dataset as the first run left it
(date-serial cells already rewritten as ISO strings) reproduces the first
run's output exactly: the second pass flags no date column (converted
columns hold no numbers, unconverted columns are unchanged), so
classification and every KPI are recomputed from identical inputs. -/
theorem processData_idempotent (json : List Row) (a : Analytics)
    (h : processData json = some a) : processData a.raw = some a := by
  have hne : json.isEmpty = false := by
    cases he : json.isEmpty
    · rfl
    · rw [processData, if_pos (by simp [he])] at h
      cases h
  rw [processData_eq json hne] at h
  obtain rfl := Option.some.inj h
  dsimp only
  rw [processData_eq _ (by rw [convertDates_isEmpty]; exact hne)]
  rw [convertDates_idem, headersOf_convertDates]

/-- Witness for C7's theorem on a concrete one-row dataset (a single
categorical column), with the first run's output supplied by computation. -/
theorem processData_idempotent_witness :
    processData
        (Analytics.raw
          ⟨[], [⟨"x", [("u", 1)], 1⟩], [[("x", Value.str "u")]], ["x"]⟩) =
      some ⟨[], [⟨"x", [("u", 1)], 1⟩], [[("x", Value.str "u")]], ["x"]⟩ :=
  processData_idempotent [[("x", Value.str "u")]] _ rfl
